import Mathlib

/-!
Verification of the Modern-ETL-Pipeline repository (src/etl_pipeline.py).

The development shallowly embeds the algorithmic core of the pipeline:

* `Val`, `ColType`, `Table` model a pandas DataFrame: named, dtype-tagged
  columns over rows of scalar cells, with `Val.vnan` as the missing marker
  (NaN / NaT / None).
* `cleanData` embeds `DataTransformer.clean_data` (lines 87-115):
  `drop_duplicates`, per-column median / "Unknown" imputation, and the
  sequential IQR outlier loop.
* `transformData` embeds `DataTransformer.transform_data` (lines 120-141):
  the `pd.cut` price binning, the `processed_at` column, and the
  `str.strip().str.title()` normalization of object-dtype columns.
* `collectSources`, `runBody`, `runPipeline`, `logMetrics` embed the
  orchestration in `ETLPipeline.run_pipeline` (lines 251-328) and
  `ETLPipeline.log_metrics` (lines 330-348); exceptions are modelled by
  `Except String`.
* `Store`, `cleanProg`, `transformProg` model the Python object store at the
  granularity of which DataFrame object each statement writes, to settle the
  aliasing claim about stage boundaries.

Numeric cells are rationals (the inputs the claims quantify over are exact
decimal data, where pandas float arithmetic agrees with exact arithmetic);
text cells are ASCII strings, for which `Char.isAlpha`, `Char.toUpper`,
`Char.toLower`, `Char.isWhitespace` agree with the Python semantics used by
`str.title()` and `str.strip()`.
-/

/-- A scalar cell of a DataFrame: a number, a string, a timestamp, or the
missing marker (NaN / NaT / None). -/
inductive Val where
  | vnum : ℚ → Val
  | vstr : String → Val
  | vtime : Nat → Val
  | vnan : Val
deriving DecidableEq

/-- The pandas dtype of a column, as used by `select_dtypes`: `numeric` is
`np.number`, `text` is `object`, `datetime` is `datetime64`, `categorical`
is the dtype produced by `pd.cut`. -/
inductive ColType where
  | numeric
  | text
  | datetime
  | categorical
deriving DecidableEq

/-- A row of cells, positionally aligned with the column list of its table. -/
abbrev Row := List Val

/-- A DataFrame: named, dtype-tagged columns and the list of rows. -/
structure Table where
  cols : List (String × ColType)
  rows : List Row
deriving DecidableEq

/-- Cell of a row at column position `j` (missing marker when out of range). -/
def cellAt (r : Row) (j : Nat) : Val := r.getD j Val.vnan

/-- Insert a rational into a sorted list, keeping it sorted. -/
def insertSorted (x : ℚ) : List ℚ → List ℚ
  | [] => [x]
  | y :: ys => if x ≤ y then x :: y :: ys else y :: insertSorted x ys

/-- Ascending sort of a list of rationals (insertion sort). -/
def sortQ (l : List ℚ) : List ℚ := l.foldr insertSorted []

/-- Floor of a nonnegative rational, as a natural number (for nonnegative `q`,
truncating integer division of numerator by denominator is the floor). -/
def floorNat (q : ℚ) : Nat := (q.num / (q.den : Int)).toNat

/-- Linear interpolation at fractional position `h` into a sorted list `xs`:
`xs[i] + (h - i) * (xs[i+1] - xs[i])` with `i = floor h`.  This is the
`interpolation=linear` rule of `pandas.Series.quantile`. -/
def interp (xs : List ℚ) (h : ℚ) : ℚ :=
  let i := floorNat h
  let a := xs.getD i 0
  let b := xs.getD (i + 1) a
  a + (h - (i : ℚ)) * (b - a)

/-- `pandas.Series.quantile(q)` over the non-missing values `l` of a column:
sort, then linearly interpolate at position `q * (n - 1)`.  On an empty
series pandas returns NaN, modelled as `none`. -/
def quantileQ (q : ℚ) (l : List ℚ) : Option ℚ :=
  match sortQ l with
  | [] => none
  | xs => some (interp xs (q * ((xs.length : ℚ) - 1)))

/-- `pandas.Series.median()` over the non-missing values of a column: the
linear 0.5 quantile (middle element, or mean of the two middle elements). -/
def medianQ (l : List ℚ) : Option ℚ := quantileQ (1/2) l

/-- `df.drop_duplicates()` with an explicit accumulator of already seen rows:
a row equal (cell-wise, with NaN equal to NaN, as pandas compares rows for
duplicate removal) to an earlier row is dropped, the first occurrence is
kept, in original order. -/
def dedupRows (seen : List Row) : List Row → List Row
  | [] => []
  | r :: rs => if r ∈ seen then dedupRows seen rs else r :: dedupRows (r :: seen) rs

/-- `df.drop_duplicates()` (line 94). -/
def dropDuplicates (rows : List Row) : List Row := dedupRows [] rows

/-- The deduplication stage of `clean_data` on a table. -/
def dedupT (t : Table) : Table := { t with rows := dropDuplicates t.rows }

/-- The non-missing numeric values of column `j` (what pandas statistics see
after NaN skipping). -/
def numsAt (rows : List Row) (j : Nat) : List ℚ :=
  rows.filterMap (fun r =>
    match cellAt r j with
    | Val.vnum q => some q
    | _ => none)

/-- The fill value of column `j` used by lines 96-101 of `clean_data`:
a numeric column is filled with its median over non-missing values (no fill
when the median is NaN, i.e. the column has no non-missing value); an
object column is filled with the literal string "Unknown"; other dtypes are
not selected by either `select_dtypes` call and are not filled. -/
def colFill (t : Table) (j : Nat) : Option Val :=
  match (t.cols.getD j ("", ColType.text)).2 with
  | ColType.numeric => (medianQ (numsAt t.rows j)).map Val.vnum
  | ColType.text => some (Val.vstr "Unknown")
  | _ => none

/-- The per-column fill values of a table, in column order. -/
def fillsOf (t : Table) : List (Option Val) :=
  (List.range t.cols.length).map (colFill t)

/-- Apply the fill values to one row: a missing cell takes its column's fill
value when there is one and stays missing otherwise; a present cell is kept. -/
def imputeRow : List (Option Val) → Row → Row
  | f :: fs, v :: vs =>
      (if v = Val.vnan then f.getD Val.vnan else v) :: imputeRow fs vs
  | _, vs => vs

/-- The imputation stage of `clean_data` (lines 96-101): fill values are
computed from the table once and applied to every row. -/
def imputeTable (t : Table) : Table :=
  { t with rows := t.rows.map (imputeRow (fillsOf t)) }

/-- The boolean mask `(df[col] >= lower) & (df[col] <= upper)` on one cell:
comparisons against a missing value are False in pandas. -/
def inBoundsB (lo hi : ℚ) (v : Val) : Bool :=
  match v with
  | Val.vnum q => decide (lo ≤ q) && decide (q ≤ hi)
  | _ => false

/-- One iteration of the outlier loop (lines 104-110) on column `j`: Q1 and
Q3 are the 0.25 and 0.75 quantiles of the column over the CURRENT rows,
and the rows kept are those inside `[Q1 - 1.5*IQR, Q3 + 1.5*IQR]`.  When the
column has no non-missing value both quantiles are NaN, both comparisons of
the mask are False, and no row survives. -/
def outlierPass (rows : List Row) (j : Nat) : List Row :=
  match quantileQ (1/4) (numsAt rows j), quantileQ (3/4) (numsAt rows j) with
  | some q1, some q3 =>
      let iqr := q3 - q1
      rows.filter (fun r => inBoundsB (q1 - 3/2 * iqr) (q3 + 3/2 * iqr) (cellAt r j))
  | _, _ => []

/-- The positions of the numeric-dtype columns, in column order (the order of
`df.select_dtypes(include=[np.number]).columns`). -/
def numericIdxs (cols : List (String × ColType)) : List Nat :=
  (List.range cols.length).filter
    (fun j => decide ((cols.getD j ("", ColType.text)).2 = ColType.numeric))

/-- The outlier loop: the passes run sequentially in column order, each on the
rows left by the previous passes. -/
def removeOutliers (js : List Nat) (rows : List Row) : List Row :=
  js.foldl outlierPass rows

/-- The outlier-removal stage of `clean_data` on a table. -/
def outlierStage (t : Table) : Table :=
  { t with rows := removeOutliers (numericIdxs t.cols) t.rows }

/-- `DataTransformer.clean_data` (lines 87-115): deduplicate, impute, then
remove outliers. -/
def cleanData (t : Table) : Table := outlierStage (imputeTable (dedupT t))

/-- The bin of `pd.cut(price, bins=[0, 50, 200, 500, inf], labels=[...])`
(lines 127-129).  `pd.cut` defaults to `right=True` and
`include_lowest=False`, so the bins are the right-closed intervals
`(0, 50]`, `(50, 200]`, `(200, 500]`, `(500, inf)`; a value in no bin
(in particular any value `<= 0`) gets the missing category. -/
def priceCategory (q : ℚ) : Option String :=
  if 0 < q ∧ q ≤ 50 then some "Low"
  else if 50 < q ∧ q ≤ 200 then some "Medium"
  else if 200 < q ∧ q ≤ 500 then some "High"
  else if 500 < q then some "Premium"
  else none

/-- `pd.cut` on one cell of the numeric `price` column: a number is binned,
a missing value stays missing.  (In a numeric-dtype column every cell is a
number or NaN; the remaining constructors cannot occur there.) -/
def cutPrice : Val → Val
  | Val.vnum q =>
      match priceCategory q with
      | some s => Val.vstr s
      | none => Val.vnan
  | _ => Val.vnan

/-- Characters stripped by Python `str.strip()` with no argument. -/
def stripChars (cs : List Char) : List Char :=
  ((cs.dropWhile Char.isWhitespace).reverse.dropWhile Char.isWhitespace).reverse

/-- Python `str.strip()`: remove leading and trailing whitespace. -/
def pyStrip (s : String) : String := String.mk (stripChars s.data)

/-- Python `str.title()` character by character: a word is a maximal run of
letters; the first letter of a word is uppercased, every other letter is
lowercased, non-letters are unchanged.  The flag records whether the
previous character was a letter. -/
def titleChars : Bool → List Char → List Char
  | _, [] => []
  | prevAlpha, c :: cs =>
      (if c.isAlpha then (if prevAlpha then c.toLower else c.toUpper) else c)
        :: titleChars c.isAlpha cs

/-- Python `str.title()`. -/
def pyTitle (s : String) : String := String.mk (titleChars false s.data)

/-- `df[col].str.strip().str.title()` on one string (line 138). -/
def normalizeText (s : String) : String := pyTitle (pyStrip s)

/-- `df[col].str.strip().str.title()` on one cell of an object column: the
pandas `.str` accessor propagates missing values unchanged. -/
def normVal : Val → Val
  | Val.vstr s => Val.vstr (normalizeText s)
  | v => v

/-- Modelled from the spec sentence of claim C8: title-casing whose tokens
are separated by whitespace ("first letter of each whitespace-separated
token capitalized, rest lowercased").  The flag records whether the previous
character was whitespace (or the start of the string). -/
def specTitleChars : Bool → List Char → List Char
  | _, [] => []
  | atStart, c :: cs =>
      (if c.isWhitespace then c else if atStart then c.toUpper else c.toLower)
        :: specTitleChars c.isWhitespace cs

/-- The normalization the spec of claim C8 describes: trim, then capitalize
the first character of each whitespace-separated token and lowercase the
rest. -/
def specNormalizeText (s : String) : String :=
  String.mk (specTitleChars true (stripChars s.data))

/-- `'name' in df.columns`. -/
def hasCol (cols : List (String × ColType)) (nm : String) : Bool :=
  cols.any (fun c => c.1 == nm)

/-- Position of the first column with the given name. -/
def findColIdx (cols : List (String × ColType)) (nm : String) : Nat :=
  cols.findIdx (fun c => c.1 == nm)

/-- Lines 126-129 of `transform_data`: when a column named `price` exists,
append the `price_category` column (a `pd.cut` result has categorical
dtype), binning the price cell of each row. -/
def addPriceCategory (t : Table) : Table :=
  if hasCol t.cols "price" then
    { cols := t.cols ++ [("price_category", ColType.categorical)],
      rows := t.rows.map (fun r => r ++ [cutPrice (cellAt r (findColIdx t.cols "price"))]) }
  else t

/-- Line 132 of `transform_data`: append the `processed_at` column, a
datetime column holding the one clock reading `now` in every row. -/
def addProcessedAt (now : Nat) (t : Table) : Table :=
  { cols := t.cols ++ [("processed_at", ColType.datetime)],
    rows := t.rows.map (fun r => r ++ [Val.vtime now]) }

/-- Lines 134-138 of `transform_data` on one row: every object-dtype column
whose name is not `processed_at` is normalized cell-wise; other columns are
unchanged. -/
def normalizeRow (cols : List (String × ColType)) (r : Row) : Row :=
  (cols.zip r).map (fun p =>
    if p.1.2 = ColType.text ∧ p.1.1 ≠ "processed_at" then normVal p.2 else p.2)

/-- The text-normalization stage of `transform_data`. -/
def normalizeStage (t : Table) : Table :=
  { t with rows := t.rows.map (normalizeRow t.cols) }

/-- `DataTransformer.transform_data` (lines 120-141): derive `price_category`,
append `processed_at`, then normalize the text columns. -/
def transformData (now : Nat) (t : Table) : Table :=
  normalizeStage (addProcessedAt now (addPriceCategory t))

/-- The tables of the sources whose extraction succeeded, in source order
(the `extracted_data` list built by the guarded blocks of lines 260-272:
a source that raises is logged and skipped, a source that succeeds has its
table appended). -/
def okTables (srcs : List (Except String Table)) : List Table :=
  srcs.filterMap (fun s =>
    match s with
    | Except.ok t => some t
    | Except.error _ => none)

/-- Concatenation of a list of lists, in order. -/
def concatAll {α : Type} (l : List (List α)) : List α :=
  l.foldr (fun a b => a ++ b) []

/-- The column set of `pd.concat`: the union of the column sets of the
contributing tables, in first-seen order. -/
def unionCols (ts : List Table) : List (String × ColType) :=
  ts.foldl (fun acc t => acc ++ t.cols.filter (fun c => !(hasCol acc c.1))) []

/-- Align one row of a source table to the union column set: a column the
source does not have is filled with the missing marker. -/
def alignRow (target src : List (String × ColType)) (r : Row) : Row :=
  target.map (fun c =>
    match src.findIdx? (fun d => d.1 == c.1) with
    | some k => r.getD k Val.vnan
    | none => Val.vnan)

/-- `pd.concat(extracted_data, ignore_index=True)` (line 278): the union of
the column sets, and the rows of every table in source order, each aligned
to the union columns. -/
def concatTables (ts : List Table) : Table :=
  { cols := unionCols ts,
    rows := concatAll (ts.map (fun t => t.rows.map (alignRow (unionCols ts) t.cols))) }

/-- The collecting stage of `run_pipeline` (lines 258-279), over an ordered
list of source outcomes (the code unrolls this loop over its two configured
sources): each source is independently guarded, the successes are kept in
source order, an empty success list raises
`Exception("No data sources available")`, and otherwise the successes are
concatenated. -/
def collectSources (srcs : List (Except String Table)) : Except String Table :=
  if (okTables srcs).isEmpty then Except.error "No data sources available"
  else Except.ok (concatTables (okTables srcs))

/-- One record of `data/output/pipeline_metrics.json`, shaped as in lines
306-312 and 319-326 (`error` is present only on the failure path). -/
structure Metrics where
  execution_time : ℚ
  rows_processed : Nat
  start_time : ℚ
  end_time : ℚ
  status : String
  error : Option String
deriving DecidableEq

/-- The state of the metrics file: missing, present but unparsable, or a
parsed JSON array of records. -/
inductive MetricsFile where
  | absent
  | corrupt
  | good : List Metrics → MetricsFile
deriving DecidableEq

/-- The read of lines 334-341 of `log_metrics`: a missing file or a parse
error yields the empty array, with the error swallowed. -/
def readMetrics : MetricsFile → List Metrics
  | MetricsFile.good l => l
  | _ => []

/-- `ETLPipeline.log_metrics` (lines 330-348): read the existing array,
append the one new record, rewrite the whole array. -/
def logMetrics (f : MetricsFile) (m : Metrics) : MetricsFile :=
  MetricsFile.good (readMetrics f ++ [m])

/-- The staged body of `run_pipeline` (lines 258-300): collect the two
sources, clean, transform, then write to the three sinks in order; the
first exception aborts the body (the remaining stages never run), and on
success the body yields `len(transformed_data)`.  The stage behaviours
(`cl`, `tr`, the three sink writes) are parameters, as the claims quantify
over which stage fails. -/
def runBody (csv api : Except String Table) (cl tr : Table → Except String Table)
    (l1 l2 l3 : Table → Except String Unit) : Except String Nat :=
  match collectSources [csv, api] with
  | Except.error e => Except.error e
  | Except.ok combined =>
    match cl combined with
    | Except.error e => Except.error e
    | Except.ok cleaned =>
      match tr cleaned with
      | Except.error e => Except.error e
      | Except.ok transformed =>
        match l1 transformed with
        | Except.error e => Except.error e
        | Except.ok _ =>
          match l2 transformed with
          | Except.error e => Except.error e
          | Except.ok _ =>
            match l3 transformed with
            | Except.error e => Except.error e
            | Except.ok _ => Except.ok transformed.rows.length

/-- `ETLPipeline.run_pipeline` (lines 251-328): run the body, then append
exactly one metrics record.  On success the record carries the elapsed
duration `e - s` and the final row count; on failure it carries
`execution_time` 0, `rows_processed` 0, status `failed`, and the description
of the exception, which is then re-raised.  `s` and `e` are the clock
readings at the start and at finalization. -/
def runPipeline (csv api : Except String Table) (cl tr : Table → Except String Table)
    (l1 l2 l3 : Table → Except String Unit) (s e : ℚ) (log : MetricsFile) :
    MetricsFile × Except String Unit :=
  match runBody csv api cl tr l1 l2 l3 with
  | Except.ok n => (logMetrics log ⟨e - s, n, s, e, "success", none⟩, Except.ok ())
  | Except.error msg => (logMetrics log ⟨0, 0, s, e, "failed", some msg⟩, Except.error msg)

/-- The Python object store, at the granularity of DataFrame objects:
a reference is a natural number, and the store gives the table each
reference currently holds. -/
abbrev Store := Nat → Table

/-- Write one reference of the store. -/
def updStore (s : Store) (r : Nat) (t : Table) : Store :=
  fun x => if x = r then t else s x

/-- The object-level effect of `clean_data(df0)`, with `fresh` the first
unused reference: line 94 binds the local `df` to a NEW object
(`drop_duplicates` returns a copy), lines 96-101 write that local object in
place, and each iteration of lines 104-110 rebinds the local `df` to a new
filtered object (collapsed here to one fresh reference holding the final
rows).  The argument reference `df0` is never written. -/
def cleanProg (s : Store) (df0 fresh : Nat) : Store × Nat :=
  let s1 := updStore s fresh (dedupT (s df0))
  let s2 := updStore s1 fresh (imputeTable (s1 fresh))
  let s3 := updStore s2 (fresh + 1) (outlierStage (s2 fresh))
  (s3, fresh + 1)

/-- The object-level effect of `transform_data(df0)`: lines 127, 132 and 138
are `df[...] = ...` column assignments, which write the ARGUMENT object in
place (no copy is ever taken), and line 141 returns that same object. -/
def transformProg (s : Store) (df0 now : Nat) : Store × Nat :=
  (updStore s df0 (transformData now (s df0)), df0)

/-- Modelled from the spec sentences of claim C2: the order-independent
variant of outlier removal, where the bounds of EVERY column are computed
over the original table and a row is kept when it is inside the bounds of
all columns. -/
def indepOutliers (js : List Nat) (rows : List Row) : List Row :=
  rows.filter (fun r => js.all (fun j =>
    match quantileQ (1/4) (numsAt rows j), quantileQ (3/4) (numsAt rows j) with
    | some q1, some q3 =>
        inBoundsB (q1 - 3/2 * (q3 - q1)) (q3 + 3/2 * (q3 - q1)) (cellAt r j)
    | _, _ => false))

/-- Modelled from the spec sentences of claim C3, walking the list with `pre`
holding ALL earlier rows of the original list: a row equal to an earlier row
is removed, every other row is retained, in original order (so exactly the
first occurrence of each row value survives). -/
def specDedupAux (pre : List Row) : List Row → List Row
  | [] => []
  | r :: rs =>
      if r ∈ pre then specDedupAux (pre ++ [r]) rs
      else r :: specDedupAux (pre ++ [r]) rs

/-- Modelled from the spec sentences of claim C3: remove the rows that
duplicate an earlier row, keep everything else. -/
def specDedup (l : List Row) : List Row := specDedupAux [] l

/-- Count of missing markers in column `j` of a table. -/
def countMissing (t : Table) (j : Nat) : Nat :=
  t.rows.countP (fun r => decide (cellAt r j = Val.vnan))

/-- The five-row, two-numeric-column table that separates sequential from
order-independent outlier removal (claim C2). -/
def exTableC2 : Table :=
  { cols := [("a", ColType.numeric), ("b", ColType.numeric)],
    rows := [[Val.vnum 0, Val.vnum 10],
             [Val.vnum 0, Val.vnum 11],
             [Val.vnum 0, Val.vnum 12],
             [Val.vnum 0, Val.vnum 40],
             [Val.vnum 1000, Val.vnum 100]] }

/-- A table with a datetime column holding missing values and a duplicated
row (claim C4). -/
def exTableC4 : Table :=
  { cols := [("ts", ColType.datetime), ("name", ColType.text)],
    rows := [[Val.vnan, Val.vstr "a"],
             [Val.vnan, Val.vstr "a"],
             [Val.vtime 1, Val.vstr "a"]] }

/-- A one-row table with a numeric `price` column holding the boundary value
50 (claim C1). -/
def exTableC1 : Table :=
  { cols := [("price", ColType.numeric)], rows := [[Val.vnum 50]] }

/-- A one-row table with a text column holding a value with an internal
non-letter character (claim C8). -/
def exTableC8 : Table :=
  { cols := [("name", ColType.text)], rows := [[Val.vstr "e-mail"]] }

/-- A one-row table used for witnesses. -/
def exTableW : Table :=
  { cols := [("name", ColType.text)], rows := [[Val.vstr "  john smith  "]] }

/-- A numeric-and-text table with one fully missing row (the shape of the
`test_clean_data_fills_nulls` fixture of the repository test suite). -/
def exTableW4 : Table :=
  { cols := [("v", ColType.numeric), ("lbl", ColType.text)],
    rows := [[Val.vnum 10, Val.vstr "X"],
             [Val.vnan, Val.vnan],
             [Val.vnum 30, Val.vstr "Z"]] }

/-- Whether a cell is of the kind a numeric-dtype column can hold (a number
or the missing marker); used as a well-formedness hypothesis on tables. -/
def isNumOrNan : Val → Bool
  | Val.vnum _ => true
  | Val.vnan => true
  | _ => false

/-! ### Generic list access lemmas -/

/-- `getD` into the left part of an append with a singleton. -/
theorem getD_append_lt {α : Type} (l : List α) (x d : α) :
    ∀ j, j < l.length → (l ++ [x]).getD j d = l.getD j d := by
  induction l with
  | nil => intro j h; exact absurd h (Nat.not_lt_zero j)
  | cons a as ih =>
    intro j h
    cases j with
    | zero => rfl
    | succ k =>
      simp only [List.cons_append, List.getD_cons_succ]
      exact ih k (Nat.lt_of_succ_lt_succ h)

/-- `getD` at the appended position. -/
theorem getD_append_len {α : Type} (l : List α) (x d : α) :
    (l ++ [x]).getD l.length d = x := by
  induction l with
  | nil => rfl
  | cons a as ih => simp only [List.cons_append, List.length_cons, List.getD_cons_succ]; exact ih

/-- `getD` commutes with `map` below the length. -/
theorem getD_map_lt {α β : Type} (g : α → β) (d : β) (d0 : α) :
    ∀ (l : List α) (i : Nat), i < l.length → (l.map g).getD i d = g (l.getD i d0) := by
  intro l
  induction l with
  | nil => intro i h; exact absurd h (Nat.not_lt_zero i)
  | cons a as ih =>
    intro i h
    cases i with
    | zero => rfl
    | succ k =>
      simp only [List.map_cons, List.getD_cons_succ]
      exact ih k (Nat.lt_of_succ_lt_succ h)

/-- An in-range `getD` is a member of the list. -/
theorem getD_mem_of_lt {α : Type} (d : α) :
    ∀ (l : List α) (i : Nat), i < l.length → l.getD i d ∈ l := by
  intro l
  induction l with
  | nil => intro i h; exact absurd h (Nat.not_lt_zero i)
  | cons a as ih =>
    intro i h
    cases i with
    | zero => exact List.mem_cons_self a as
    | succ k =>
      simp only [List.getD_cons_succ]
      exact List.mem_cons_of_mem a (ih k (Nat.lt_of_succ_lt_succ h))

/-- `getD` into a mapped range evaluates the function. -/
theorem getD_map_range {β : Type} (f : Nat → β) (d : β) :
    ∀ (n j : Nat), j < n → ((List.range n).map f).getD j d = f j := by
  intro n
  induction n with
  | zero => intro j h; exact absurd h (Nat.not_lt_zero j)
  | succ m ih =>
    intro j hj
    rw [List.range_succ, List.map_append, List.map_singleton]
    rcases Nat.lt_or_ge j m with h | h
    · have hlen : j < ((List.range m).map f).length := by simpa using h
      rw [getD_append_lt _ _ _ _ hlen]
      exact ih j h
    · have hj' : j = m := Nat.le_antisymm (Nat.lt_succ_iff.mp hj) h
      subst hj'
      have hlen : ((List.range j).map f).length = j := by simp
      calc ((List.range j).map f ++ [f j]).getD j d
          = ((List.range j).map f ++ [f j]).getD ((List.range j).map f).length d := by
            rw [hlen]
        _ = f j := getD_append_len _ _ _

/-! ### Deduplication lemmas (claim C3) -/

/-- A row produced by `dedupRows` was not among the seen rows. -/
theorem dedupRows_not_mem_seen :
    ∀ (l seen : List Row) (r : Row), r ∈ dedupRows seen l → r ∉ seen := by
  intro l
  induction l with
  | nil => intro seen r h; simp [dedupRows] at h
  | cons a as ih =>
    intro seen r h
    by_cases ha : a ∈ seen
    · rw [dedupRows, if_pos ha] at h
      exact ih seen r h
    · rw [dedupRows, if_neg ha] at h
      rcases List.mem_cons.mp h with rfl | h
      · exact ha
      · intro hs
        exact ih (a :: seen) r h (List.mem_cons_of_mem a hs)

/-- `dedupRows` produces no duplicate rows. -/
theorem dedupRows_nodup : ∀ (l seen : List Row), (dedupRows seen l).Nodup := by
  intro l
  induction l with
  | nil => intro seen; simp [dedupRows]
  | cons a as ih =>
    intro seen
    by_cases ha : a ∈ seen
    · rw [dedupRows, if_pos ha]; exact ih seen
    · rw [dedupRows, if_neg ha]
      refine List.nodup_cons.mpr ⟨?_, ih (a :: seen)⟩
      intro hmem
      exact dedupRows_not_mem_seen as (a :: seen) a hmem (List.mem_cons_self a seen)

/-- `dedupRows` is a sublist: surviving rows keep their original order. -/
theorem dedupRows_sublist : ∀ (l seen : List Row), List.Sublist (dedupRows seen l) l := by
  intro l
  induction l with
  | nil => intro seen; simp [dedupRows]
  | cons a as ih =>
    intro seen
    by_cases ha : a ∈ seen
    · rw [dedupRows, if_pos ha]; exact (ih seen).cons a
    · rw [dedupRows, if_neg ha]; exact (ih (a :: seen)).cons₂ a

/-- A row not among the seen rows survives `dedupRows`. -/
theorem dedupRows_mem :
    ∀ (l seen : List Row) (r : Row), r ∈ l → r ∉ seen → r ∈ dedupRows seen l := by
  intro l
  induction l with
  | nil => intro seen r h; simp at h
  | cons a as ih =>
    intro seen r hr hs
    by_cases ha : a ∈ seen
    · rw [dedupRows, if_pos ha]
      rcases List.mem_cons.mp hr with rfl | hr
      · exact absurd ha hs
      · exact ih seen r hr hs
    · rw [dedupRows, if_neg ha]
      rcases List.mem_cons.mp hr with rfl | hr
      · exact List.mem_cons_self r _
      · by_cases hra : r = a
        · subst hra; exact List.mem_cons_self r _
        · refine List.mem_cons_of_mem a (ih (a :: seen) r hr ?_)
          intro hmem
          rcases List.mem_cons.mp hmem with h | h
          · exact hra h
          · exact hs h

/-- `dedupRows` agrees with the spec-side walk `specDedupAux` whenever the
seen set and the earlier-row accumulator have the same members. -/
theorem dedupRows_eq_specDedupAux :
    ∀ (l pre seen : List Row), (∀ x, x ∈ pre ↔ x ∈ seen) →
      specDedupAux pre l = dedupRows seen l := by
  intro l
  induction l with
  | nil => intro pre seen _; rfl
  | cons a as ih =>
    intro pre seen hiff
    by_cases ha : a ∈ pre
    · have ha' : a ∈ seen := (hiff a).mp ha
      rw [specDedupAux, if_pos ha, dedupRows, if_pos ha']
      refine ih (pre ++ [a]) seen (fun x => ?_)
      constructor
      · intro hx
        rcases List.mem_append.mp hx with h | h
        · exact (hiff x).mp h
        · rcases List.mem_singleton.mp h with rfl
          exact ha'
      · intro hx
        exact List.mem_append.mpr (Or.inl ((hiff x).mpr hx))
    · have ha' : a ∉ seen := fun h => ha ((hiff a).mpr h)
      rw [specDedupAux, if_neg ha, dedupRows, if_neg ha']
      refine congrArg (List.cons a) (ih (pre ++ [a]) (a :: seen) (fun x => ?_))
      constructor
      · intro hx
        rcases List.mem_append.mp hx with h | h
        · exact List.mem_cons_of_mem a ((hiff x).mp h)
        · rcases List.mem_singleton.mp h with rfl
          exact List.mem_cons_self x seen
      · intro hx
        rcases List.mem_cons.mp hx with rfl | h
        · exact List.mem_append.mpr (Or.inr (List.mem_singleton.mpr rfl))
        · exact List.mem_append.mpr (Or.inl ((hiff x).mpr h))

/-- Claim C3: the deduplication step of cleaning (`df.drop_duplicates()`,
line 94, the first step of `clean_data`) removes exactly the rows equal
(cell-wise, missing markers comparing equal) to an earlier row, keeps the
first occurrence of each row in original order, and retains every row that
does not duplicate an earlier one: it coincides with the spec-side walk
`specDedup`, it is an order-preserving sublist without duplicates, every
input row still occurs, and `cleanData` applies it as its first step. -/
theorem c3_dedup_keeps_first_occurrence :
    (∀ l : List Row, dropDuplicates l = specDedup l)
    ∧ (∀ l : List Row, List.Sublist (dropDuplicates l) l)
    ∧ (∀ l : List Row, (dropDuplicates l).Nodup)
    ∧ (∀ (l : List Row) (r : Row), r ∈ l → r ∈ dropDuplicates l)
    ∧ (∀ t : Table, (dedupT t).rows = dropDuplicates t.rows)
    ∧ (∀ t : Table, cleanData t = outlierStage (imputeTable (dedupT t))) := by
  refine ⟨?_, ?_, ?_, ?_, fun _ => rfl, fun _ => rfl⟩
  · intro l
    exact (dedupRows_eq_specDedupAux l [] [] (fun x => Iff.rfl)).symm
  · intro l
    exact dedupRows_sublist l []
  · intro l
    exact dedupRows_nodup l []
  · intro l r hr
    exact dedupRows_mem l [] r hr (List.not_mem_nil r)

/-- Witness for claim C3 at a concrete table: the repeated row survives once. -/
theorem c3_witness :
    [Val.vnum 2] ∈ dropDuplicates [[Val.vnum 1], [Val.vnum 1], [Val.vnum 2]] :=
  c3_dedup_keeps_first_occurrence.2.2.2.1
    [[Val.vnum 1], [Val.vnum 1], [Val.vnum 2]] [Val.vnum 2] (by decide)

/-! ### Structure projection lemmas for the cleaning stages -/

theorem dedupT_rows (t : Table) : (dedupT t).rows = dropDuplicates t.rows := rfl

theorem dedupT_cols (t : Table) : (dedupT t).cols = t.cols := rfl

theorem imputeTable_rows (t : Table) :
    (imputeTable t).rows = t.rows.map (imputeRow (fillsOf t)) := rfl

theorem imputeTable_cols (t : Table) : (imputeTable t).cols = t.cols := rfl

theorem cleanData_rows (t : Table) :
    (cleanData t).rows
      = removeOutliers (numericIdxs t.cols) ((imputeTable (dedupT t)).rows) := rfl

/-! ### Imputation lemmas (claim C4) -/

theorem imputeRow_length :
    ∀ (fills : List (Option Val)) (r : Row), (imputeRow fills r).length = r.length := by
  intro fills
  induction fills with
  | nil => intro r; rfl
  | cons f fs ih =>
    intro r
    cases r with
    | nil => rfl
    | cons v vs => simp [imputeRow, ih]

theorem imputeRow_cellAt :
    ∀ (j : Nat) (fills : List (Option Val)) (r : Row), j < r.length → j < fills.length →
      cellAt (imputeRow fills r) j =
        if cellAt r j = Val.vnan then (fills.getD j none).getD Val.vnan else cellAt r j := by
  intro j
  induction j with
  | zero =>
    intro fills r hr hf
    cases fills with
    | nil => exact absurd hf (Nat.not_lt_zero 0)
    | cons f fs =>
      cases r with
      | nil => exact absurd hr (Nat.not_lt_zero 0)
      | cons v vs => simp [imputeRow, cellAt]
  | succ k ih =>
    intro fills r hr hf
    cases fills with
    | nil => exact absurd hf (Nat.not_lt_zero _)
    | cons f fs =>
      cases r with
      | nil => exact absurd hr (Nat.not_lt_zero _)
      | cons v vs =>
        simp only [imputeRow, cellAt, List.getD_cons_succ]
        exact ih fs vs (Nat.lt_of_succ_lt_succ hr) (Nat.lt_of_succ_lt_succ hf)

theorem fillsOf_length (t : Table) : (fillsOf t).length = t.cols.length := by
  simp [fillsOf]

theorem fillsOf_getD (t : Table) (j : Nat) (h : j < t.cols.length) :
    (fillsOf t).getD j none = colFill t j := by
  rw [fillsOf]
  exact getD_map_range (colFill t) none t.cols.length j h

/-! ### Quantile and outlier lemmas (claims C2 and C4) -/

theorem insertSorted_length (x : ℚ) :
    ∀ l : List ℚ, (insertSorted x l).length = l.length + 1 := by
  intro l
  induction l with
  | nil => rfl
  | cons y ys ih =>
    by_cases h : x ≤ y
    · simp [insertSorted, h]
    · simp [insertSorted, h, ih]

theorem sortQ_length : ∀ l : List ℚ, (sortQ l).length = l.length := by
  intro l
  induction l with
  | nil => rfl
  | cons a as ih =>
    show (insertSorted a (sortQ as)).length = as.length + 1
    rw [insertSorted_length, ih]

theorem medianQ_nonempty (l : List ℚ) (hne : l ≠ []) : ∃ m, medianQ l = some m := by
  have hs : sortQ l ≠ [] := by
    intro h
    apply hne
    have := sortQ_length l
    rw [h] at this
    exact (List.length_eq_zero.mp this.symm)
  cases hsq : sortQ l with
  | nil => exact absurd hsq hs
  | cons x xs =>
    refine ⟨interp (x :: xs) ((1/2) * (((x :: xs).length : ℚ) - 1)), ?_⟩
    unfold medianQ quantileQ
    rw [hsq]

theorem mem_numsAt (rows : List Row) (j : Nat) (r : Row) (q : ℚ)
    (hr : r ∈ rows) (hc : cellAt r j = Val.vnum q) : q ∈ numsAt rows j := by
  rw [numsAt]
  refine List.mem_filterMap.mpr ⟨r, hr, ?_⟩
  rw [hc]

theorem isNumOrNan_cases (v : Val) (h : isNumOrNan v = true) :
    v = Val.vnan ∨ ∃ q, v = Val.vnum q := by
  cases v with
  | vnum q => exact Or.inr ⟨q, rfl⟩
  | vnan => exact Or.inl rfl
  | vstr s => simp [isNumOrNan] at h
  | vtime n => simp [isNumOrNan] at h

theorem mem_of_mem_outlierPass (rows : List Row) (j : Nat) (r : Row)
    (h : r ∈ outlierPass rows j) : r ∈ rows := by
  rcases hq1 : quantileQ (1/4) (numsAt rows j) with _ | q1 <;>
    rcases hq2 : quantileQ (3/4) (numsAt rows j) with _ | q3 <;>
    simp only [outlierPass, hq1, hq2] at h
  · exact absurd h (List.not_mem_nil r)
  · exact absurd h (List.not_mem_nil r)
  · exact absurd h (List.not_mem_nil r)
  · exact (List.mem_filter.mp h).1

theorem outlierPass_allNan (rows : List Row) (j : Nat)
    (h : ∀ r ∈ rows, cellAt r j = Val.vnan) : outlierPass rows j = [] := by
  have hn : numsAt rows j = [] := by
    rw [numsAt, List.filterMap_eq_nil_iff]
    intro r hr
    rw [h r hr]
  simp [outlierPass, hn, quantileQ, sortQ]

theorem mem_removeOutliers :
    ∀ (js : List Nat) (rows : List Row) (r : Row), r ∈ removeOutliers js rows → r ∈ rows := by
  intro js
  induction js with
  | nil => intro rows r h; exact h
  | cons j js ih =>
    intro rows r h
    exact mem_of_mem_outlierPass rows j r (ih (outlierPass rows j) r h)

theorem removeOutliers_nil_rows : ∀ js : List Nat, removeOutliers js [] = [] := by
  intro js
  induction js with
  | nil => rfl
  | cons j js ih =>
    show removeOutliers js (outlierPass [] j) = []
    rw [show outlierPass [] j = [] from rfl]
    exact ih

theorem removeOutliers_allNan (js : List Nat) (rows : List Row) (j : Nat)
    (hj : j ∈ js) (hall : ∀ r ∈ rows, cellAt r j = Val.vnan) :
    removeOutliers js rows = [] := by
  obtain ⟨u, v, rfl⟩ := List.append_of_mem hj
  rw [removeOutliers, List.foldl_append, List.foldl_cons]
  have hsub : ∀ r ∈ List.foldl outlierPass rows u, cellAt r j = Val.vnan := by
    intro r hr
    exact hall r (mem_removeOutliers u rows r hr)
  rw [outlierPass_allNan _ j hsub]
  exact removeOutliers_nil_rows v

theorem mem_numericIdxs (cols : List (String × ColType)) (j : Nat)
    (hj : j < cols.length) (ht : (cols.getD j ("", ColType.text)).2 = ColType.numeric) :
    j ∈ numericIdxs cols := by
  rw [numericIdxs]
  refine List.mem_filter.mpr ⟨List.mem_range.mpr hj, ?_⟩
  simpa using ht

/-- After the full clean, a numeric or text column carries no missing marker:
a text column was filled with "Unknown", a numeric column with at least one
non-missing value was filled with its median, and a numeric column with no
non-missing value has NaN quantile bounds, whose pass removes every row. -/
theorem cleanData_no_missing (t : Table) (j : Nat)
    (hlen : ∀ r ∈ t.rows, r.length = t.cols.length)
    (hnum : ∀ r ∈ t.rows, ∀ k, k < t.cols.length →
      (t.cols.getD k ("", ColType.text)).2 = ColType.numeric →
      isNumOrNan (cellAt r k) = true)
    (hj : j < t.cols.length)
    (htype : (t.cols.getD j ("", ColType.text)).2 = ColType.numeric
      ∨ (t.cols.getD j ("", ColType.text)).2 = ColType.text) :
    countMissing (cleanData t) j = 0 := by
  have hsub1 : ∀ r ∈ (dedupT t).rows, r ∈ t.rows := by
    intro r hr
    rw [dedupT_rows] at hr
    exact (dedupRows_sublist t.rows []).subset hr
  have hflen : j < (fillsOf (dedupT t)).length := by
    rw [fillsOf_length, dedupT_cols]
    exact hj
  rcases htype with hnumty | htext
  · -- numeric column
    cases hns : numsAt (dedupT t).rows j with
    | nil =>
      -- no non-missing value in the column: its pass drops every row
      have hall1 : ∀ r1 ∈ (dedupT t).rows, cellAt r1 j = Val.vnan := by
        intro r1 hr1
        rcases isNumOrNan_cases _ (hnum r1 (hsub1 r1 hr1) j hj hnumty) with h | ⟨q, hq⟩
        · exact h
        · exfalso
          have hmem := mem_numsAt (dedupT t).rows j r1 q hr1 hq
          rw [hns] at hmem
          exact List.not_mem_nil q hmem
      have hall2 : ∀ r2 ∈ (imputeTable (dedupT t)).rows, cellAt r2 j = Val.vnan := by
        intro r2 hr2
        rw [imputeTable_rows] at hr2
        obtain ⟨r1, hr1, rfl⟩ := List.mem_map.mp hr2
        have hlen1 : j < r1.length := by
          rw [hlen r1 (hsub1 r1 hr1)]
          exact hj
        rw [imputeRow_cellAt j (fillsOf (dedupT t)) r1 hlen1 hflen]
        rw [if_pos (hall1 r1 hr1), fillsOf_getD (dedupT t) j (by rw [dedupT_cols]; exact hj)]
        have hcf : colFill (dedupT t) j = none := by
          unfold colFill
          rw [dedupT_cols, hnumty, hns]
          rfl
        rw [hcf]
        rfl
      have hj' : j ∈ numericIdxs t.cols := mem_numericIdxs t.cols j hj hnumty
      have hempty : (cleanData t).rows = [] := by
        rw [cleanData_rows]
        exact removeOutliers_allNan (numericIdxs t.cols) _ j hj' hall2
      rw [countMissing, hempty]
      rfl
    | cons x xs =>
      -- the median exists and fills every missing cell
      obtain ⟨m, hm⟩ := medianQ_nonempty (numsAt (dedupT t).rows j) (by rw [hns]; simp)
      have hcf : colFill (dedupT t) j = some (Val.vnum m) := by
        unfold colFill
        rw [dedupT_cols, hnumty, hm]
        rfl
      have hcell : ∀ r2 ∈ (imputeTable (dedupT t)).rows, cellAt r2 j ≠ Val.vnan := by
        intro r2 hr2
        rw [imputeTable_rows] at hr2
        obtain ⟨r1, hr1, rfl⟩ := List.mem_map.mp hr2
        have hlen1 : j < r1.length := by
          rw [hlen r1 (hsub1 r1 hr1)]
          exact hj
        rw [imputeRow_cellAt j (fillsOf (dedupT t)) r1 hlen1 hflen]
        by_cases hv : cellAt r1 j = Val.vnan
        · rw [if_pos hv, fillsOf_getD (dedupT t) j (by rw [dedupT_cols]; exact hj), hcf]
          simp
        · rw [if_neg hv]
          exact hv
      rw [countMissing, List.countP_eq_zero]
      intro r hr
      simp only [decide_eq_true_eq]
      rw [cleanData_rows] at hr
      exact hcell r (mem_removeOutliers _ _ _ hr)
  · -- text column: filled with "Unknown"
    have hcf : colFill (dedupT t) j = some (Val.vstr "Unknown") := by
      unfold colFill
      rw [dedupT_cols, htext]
    have hcell : ∀ r2 ∈ (imputeTable (dedupT t)).rows, cellAt r2 j ≠ Val.vnan := by
      intro r2 hr2
      rw [imputeTable_rows] at hr2
      obtain ⟨r1, hr1, rfl⟩ := List.mem_map.mp hr2
      have hlen1 : j < r1.length := by
        rw [hlen r1 (hsub1 r1 hr1)]
        exact hj
      rw [imputeRow_cellAt j (fillsOf (dedupT t)) r1 hlen1 hflen]
      by_cases hv : cellAt r1 j = Val.vnan
      · rw [if_pos hv, fillsOf_getD (dedupT t) j (by rw [dedupT_cols]; exact hj), hcf]
        simp
      · rw [if_neg hv]
        exact hv
    rw [countMissing, List.countP_eq_zero]
    intro r hr
    simp only [decide_eq_true_eq]
    rw [cleanData_rows] at hr
    exact hcell r (mem_removeOutliers _ _ _ hr)

/-- Claim C4 (amended): imputation during cleaning replaces each missing
value of a numeric column by that column's median over its non-missing
values, leaves an entirely missing numeric column unfilled, and replaces
each missing value of a text column by the literal "Unknown"; consequently
after `clean` every NUMERIC OR TEXT column's missing-marker count is 0 or
unchanged (columns of other dtypes, e.g. datetime, are touched by neither
`select_dtypes` call and may keep missing markers). -/
theorem c4_imputation_missing_amended :
    (∀ (t : Table) (j : Nat), (t.cols.getD j ("", ColType.text)).2 = ColType.text →
      colFill t j = some (Val.vstr "Unknown"))
    ∧ (∀ (t : Table) (j : Nat), (t.cols.getD j ("", ColType.text)).2 = ColType.numeric →
      colFill t j = (medianQ (numsAt t.rows j)).map Val.vnum)
    ∧ (∀ (j : Nat) (fills : List (Option Val)) (r : Row), j < r.length → j < fills.length →
      cellAt (imputeRow fills r) j =
        if cellAt r j = Val.vnan then (fills.getD j none).getD Val.vnan else cellAt r j)
    ∧ (∀ t : Table, (imputeTable t).rows = t.rows.map (imputeRow (fillsOf t)))
    ∧ (∀ (t : Table) (j : Nat),
      (∀ r ∈ t.rows, r.length = t.cols.length) →
      (∀ r ∈ t.rows, ∀ k, k < t.cols.length →
        (t.cols.getD k ("", ColType.text)).2 = ColType.numeric →
        isNumOrNan (cellAt r k) = true) →
      j < t.cols.length →
      ((t.cols.getD j ("", ColType.text)).2 = ColType.numeric
        ∨ (t.cols.getD j ("", ColType.text)).2 = ColType.text) →
      countMissing (cleanData t) j = 0 ∨ countMissing (cleanData t) j = countMissing t j) := by
  refine ⟨?_, ?_, imputeRow_cellAt, fun _ => rfl, ?_⟩
  · intro t j h
    unfold colFill
    rw [h]
  · intro t j h
    unfold colFill
    rw [h]
  · intro t j hlen hnum hj htype
    exact Or.inl (cleanData_no_missing t j hlen hnum hj htype)

/-- Counterexample to claim C4 as stated: on a table with a datetime column
holding missing values and one duplicated row, the missing-marker count of
that column after `clean` is neither 0 nor its input value (the datetime
column is imputed by neither `select_dtypes` branch, while deduplication
removed one of its missing cells). -/
theorem c4_claim_counterexample :
    ¬ (countMissing (cleanData exTableC4) 0 = 0
       ∨ countMissing (cleanData exTableC4) 0 = countMissing exTableC4 0) := by
  decide

/-- Witness for claim C4 at the concrete fixture table: after cleaning, its
numeric column has no missing markers. -/
theorem c4_witness :
    countMissing (cleanData exTableW4) 0 = 0
    ∨ countMissing (cleanData exTableW4) 0 = countMissing exTableW4 0 :=
  c4_imputation_missing_amended.2.2.2.2 exTableW4 0
    (by decide) (by decide) (by decide) (by decide)

/-- Claim C2: outlier removal is applied per numeric column sequentially in
the record set's column order; each pass computes Q1 and Q3 over the CURRENT
(already reduced) rows and keeps exactly the rows inside
`[Q1 - 1.5*IQR, Q3 + 1.5*IQR]`; and on a concrete five-row table the
sequential computation keeps 3 rows where the order-independent
(all-bounds-from-the-original-table) computation keeps 4. -/
theorem c2_outlier_sequential_order :
    (∀ (rows : List Row) (j : Nat) (q1 q3 : ℚ),
      quantileQ (1/4) (numsAt rows j) = some q1 →
      quantileQ (3/4) (numsAt rows j) = some q3 →
      outlierPass rows j = rows.filter (fun r =>
        inBoundsB (q1 - 3/2 * (q3 - q1)) (q3 + 3/2 * (q3 - q1)) (cellAt r j)))
    ∧ (∀ (j : Nat) (js : List Nat) (rows : List Row),
      removeOutliers (j :: js) rows = removeOutliers js (outlierPass rows j))
    ∧ (∀ t : Table, (cleanData t).rows
        = removeOutliers (numericIdxs t.cols) ((imputeTable (dedupT t)).rows))
    ∧ numericIdxs exTableC2.cols = [0, 1]
    ∧ (removeOutliers [0, 1] exTableC2.rows).length = 3
    ∧ (indepOutliers [0, 1] exTableC2.rows).length = 4 := by
  refine ⟨?_, fun _ _ _ => rfl, fun _ => rfl, by decide,
    by with_unfolding_all decide, by with_unfolding_all decide⟩
  intro rows j q1 q3 h1 h2
  simp only [outlierPass, h1, h2]

/-- Witness for claim C2: the first pass of the example, with its concrete
quantiles, filters by the concrete bounds. -/
theorem c2_witness :
    outlierPass exTableC2.rows 0 = exTableC2.rows.filter (fun r =>
      inBoundsB ((0 : ℚ) - 3/2 * ((0 : ℚ) - 0)) ((0 : ℚ) + 3/2 * ((0 : ℚ) - 0)) (cellAt r 0)) :=
  c2_outlier_sequential_order.1 exTableC2.rows 0 0 0
    (by with_unfolding_all decide) (by with_unfolding_all decide)

/-! ### Metrics log lemmas (claim C7) -/

theorem foldl_logMetrics_good :
    ∀ (ms l : List Metrics),
      List.foldl logMetrics (MetricsFile.good l) ms = MetricsFile.good (l ++ ms) := by
  intro ms
  induction ms with
  | nil => intro l; simp
  | cons m ms ih =>
    intro l
    rw [List.foldl_cons]
    show List.foldl logMetrics (MetricsFile.good (l ++ [m])) ms = MetricsFile.good (l ++ m :: ms)
    rw [ih (l ++ [m])]
    simp

/-- Claim C7: `log_metrics` reads the current array, treating a missing or
unparsable file as the empty array with the error swallowed, appends its one
record, and rewrites the whole array; hence N calls starting from an absent
file leave exactly the N records in call order. -/
theorem c7_metrics_append_in_order :
    readMetrics MetricsFile.absent = []
    ∧ readMetrics MetricsFile.corrupt = []
    ∧ (∀ (f : MetricsFile) (m : Metrics),
        logMetrics f m = MetricsFile.good (readMetrics f ++ [m]))
    ∧ (∀ ms : List Metrics,
        readMetrics (List.foldl logMetrics MetricsFile.absent ms) = ms) := by
  refine ⟨rfl, rfl, fun _ _ => rfl, ?_⟩
  intro ms
  cases ms with
  | nil => rfl
  | cons m ms =>
    rw [List.foldl_cons]
    show readMetrics (List.foldl logMetrics (MetricsFile.good [m]) ms) = m :: ms
    rw [foldl_logMetrics_good ms [m]]
    rfl

/-- Claim C5: each source of the collecting stage is independently guarded
(a failed source is skipped and collection continues unchanged), the
successful sources' rows are concatenated in source order, and an empty or
all-failing source list makes collection, and the whole run, fail with the
`No data sources available` error at the collecting stage. -/
theorem c5_collect_partial_failure :
    (∀ (msg : String) (rest : List (Except String Table)),
      collectSources (Except.error msg :: rest) = collectSources rest)
    ∧ (∀ srcs : List (Except String Table),
      collectSources srcs =
        if (okTables srcs).isEmpty then Except.error "No data sources available"
        else Except.ok (concatTables (okTables srcs)))
    ∧ (∀ (t : Table) (rest : List (Except String Table)),
      okTables (Except.ok t :: rest) = t :: okTables rest)
    ∧ (∀ ts : List Table, (concatTables ts).rows
        = concatAll (ts.map (fun u => u.rows.map (alignRow (unionCols ts) u.cols))))
    ∧ collectSources [] = Except.error "No data sources available"
    ∧ (∀ (e1 e2 : String) (cl tr : Table → Except String Table)
        (l1 l2 l3 : Table → Except String Unit) (s e : ℚ) (log : MetricsFile),
      runPipeline (Except.error e1) (Except.error e2) cl tr l1 l2 l3 s e log
        = (logMetrics log ⟨0, 0, s, e, "failed", some "No data sources available"⟩,
           Except.error "No data sources available")) := by
  refine ⟨?_, fun _ => rfl, fun _ _ => rfl, fun _ => rfl, rfl, fun _ _ _ _ _ _ _ _ _ _ => rfl⟩
  intro msg rest
  simp [collectSources, okTables]

/-- Claim C6: every invocation of the pipeline appends exactly one metrics
record on both terminal paths; a failure of any stage (collecting, cleaning,
transforming, or any of the three sink writes) short-circuits the remaining
stages and yields the failed record with `rows_processed` 0 and the error
captured; an all-success run yields the success record whose
`rows_processed` is the final transformed row count. -/
theorem c6_exactly_one_metrics_record :
    ∀ (csv api : Except String Table) (cl tr : Table → Except String Table)
      (l1 l2 l3 : Table → Except String Unit) (s e : ℚ) (log : MetricsFile),
    ((readMetrics (runPipeline csv api cl tr l1 l2 l3 s e log).1).length
        = (readMetrics log).length + 1)
    ∧ (∀ msg, runBody csv api cl tr l1 l2 l3 = Except.error msg →
        runPipeline csv api cl tr l1 l2 l3 s e log
          = (logMetrics log ⟨0, 0, s, e, "failed", some msg⟩, Except.error msg))
    ∧ (∀ n, runBody csv api cl tr l1 l2 l3 = Except.ok n →
        runPipeline csv api cl tr l1 l2 l3 s e log
          = (logMetrics log ⟨e - s, n, s, e, "success", none⟩, Except.ok ()))
    ∧ (∀ msg, collectSources [csv, api] = Except.error msg →
        runBody csv api cl tr l1 l2 l3 = Except.error msg)
    ∧ (∀ c msg, collectSources [csv, api] = Except.ok c → cl c = Except.error msg →
        runBody csv api cl tr l1 l2 l3 = Except.error msg)
    ∧ (∀ c d msg, collectSources [csv, api] = Except.ok c → cl c = Except.ok d →
        tr d = Except.error msg → runBody csv api cl tr l1 l2 l3 = Except.error msg)
    ∧ (∀ c d f msg, collectSources [csv, api] = Except.ok c → cl c = Except.ok d →
        tr d = Except.ok f → l1 f = Except.error msg →
        runBody csv api cl tr l1 l2 l3 = Except.error msg)
    ∧ (∀ c d f msg, collectSources [csv, api] = Except.ok c → cl c = Except.ok d →
        tr d = Except.ok f → l1 f = Except.ok () → l2 f = Except.error msg →
        runBody csv api cl tr l1 l2 l3 = Except.error msg)
    ∧ (∀ c d f msg, collectSources [csv, api] = Except.ok c → cl c = Except.ok d →
        tr d = Except.ok f → l1 f = Except.ok () → l2 f = Except.ok () →
        l3 f = Except.error msg →
        runBody csv api cl tr l1 l2 l3 = Except.error msg)
    ∧ (∀ c d f, collectSources [csv, api] = Except.ok c → cl c = Except.ok d →
        tr d = Except.ok f → l1 f = Except.ok () → l2 f = Except.ok () →
        l3 f = Except.ok () →
        runBody csv api cl tr l1 l2 l3 = Except.ok f.rows.length) := by
  intro csv api cl tr l1 l2 l3 s e log
  refine ⟨?_, ?_, ?_, ?_, ?_, ?_, ?_, ?_, ?_, ?_⟩
  · cases hb : runBody csv api cl tr l1 l2 l3 with
    | ok n => simp [runPipeline, hb, logMetrics, readMetrics]
    | error msg => simp [runPipeline, hb, logMetrics, readMetrics]
  · intro msg hb
    simp [runPipeline, hb]
  · intro n hb
    simp [runPipeline, hb]
  · intro msg hc
    simp [runBody, hc]
  · intro c msg hc hcl
    simp [runBody, hc, hcl]
  · intro c d msg hc hcl htr
    simp [runBody, hc, hcl, htr]
  · intro c d f msg hc hcl htr h1
    simp [runBody, hc, hcl, htr, h1]
  · intro c d f msg hc hcl htr h1 h2
    simp [runBody, hc, hcl, htr, h1, h2]
  · intro c d f msg hc hcl htr h1 h2 h3
    simp [runBody, hc, hcl, htr, h1, h2, h3]
  · intro c d f hc hcl htr h1 h2 h3
    simp [runBody, hc, hcl, htr, h1, h2, h3]

/-- Witness for claim C6 at a concrete all-success run with one failing and
one succeeding source. -/
theorem c6_witness :
    runBody (Except.ok exTableW) (Except.error "x")
        (fun t => Except.ok t) (fun t => Except.ok t)
        (fun _ => Except.ok ()) (fun _ => Except.ok ()) (fun _ => Except.ok ())
      = Except.ok (concatTables [exTableW]).rows.length :=
  (c6_exactly_one_metrics_record (Except.ok exTableW) (Except.error "x")
      (fun t => Except.ok t) (fun t => Except.ok t)
      (fun _ => Except.ok ()) (fun _ => Except.ok ()) (fun _ => Except.ok ())
      0 1 MetricsFile.absent).2.2.2.2.2.2.2.2.2
    (concatTables [exTableW]) (concatTables [exTableW]) (concatTables [exTableW])
    rfl rfl rfl rfl rfl rfl

/-- Claim C10: when any stage fails, the recorded `execution_time` is
exactly 0 no matter how much time elapsed between the clock readings `s`
and `e`; only the success record carries the true elapsed duration. -/
theorem c10_failed_zero_execution_time :
    ∀ (csv api : Except String Table) (cl tr : Table → Except String Table)
      (l1 l2 l3 : Table → Except String Unit) (s e : ℚ) (log : MetricsFile),
    (∀ msg, runBody csv api cl tr l1 l2 l3 = Except.error msg →
      (runPipeline csv api cl tr l1 l2 l3 s e log).1
        = logMetrics log ⟨0, 0, s, e, "failed", some msg⟩)
    ∧ (∀ n, runBody csv api cl tr l1 l2 l3 = Except.ok n →
      (runPipeline csv api cl tr l1 l2 l3 s e log).1
        = logMetrics log ⟨e - s, n, s, e, "success", none⟩) := by
  intro csv api cl tr l1 l2 l3 s e log
  constructor
  · intro msg hb
    simp [runPipeline, hb]
  · intro n hb
    simp [runPipeline, hb]

/-- Witness for claim C10: a run that fails at collection with clock
readings 4 seconds apart still records `execution_time` 0. -/
theorem c10_witness :
    (runPipeline (Except.error "a") (Except.error "b")
        (fun t => Except.ok t) (fun t => Except.ok t)
        (fun _ => Except.ok ()) (fun _ => Except.ok ()) (fun _ => Except.ok ())
        1 5 MetricsFile.absent).1
      = logMetrics MetricsFile.absent ⟨0, 0, 1, 5, "failed", some "No data sources available"⟩ :=
  (c10_failed_zero_execution_time (Except.error "a") (Except.error "b")
      (fun t => Except.ok t) (fun t => Except.ok t)
      (fun _ => Except.ok ()) (fun _ => Except.ok ()) (fun _ => Except.ok ())
      1 5 MetricsFile.absent).1 "No data sources available" rfl

/-- Claim C9 (amended): `clean_data` operates on a fresh object (line 94
rebinds its local to the copy returned by `drop_duplicates`), so the
caller's table is unchanged and the returned record set is a new object
holding the cleaned value; `transform_data`, however, assigns columns on its
argument in place and returns that same object, so the caller's copy ends
up holding the enriched table. -/
theorem c9_stage_ownership_amended :
    ∀ (s : Store) (r fresh now : Nat), r < fresh →
      ((cleanProg s r fresh).1 r = s r)
      ∧ ((cleanProg s r fresh).2 ≠ r)
      ∧ ((cleanProg s r fresh).1 (cleanProg s r fresh).2 = cleanData (s r))
      ∧ ((transformProg s r now).2 = r)
      ∧ ((transformProg s r now).1 r = transformData now (s r)) := by
  intro s r fresh now h
  have h1 : r ≠ fresh := Nat.ne_of_lt h
  have h2 : r ≠ fresh + 1 := Nat.ne_of_lt (Nat.lt_succ_of_lt h)
  refine ⟨?_, ?_, ?_, rfl, ?_⟩
  · simp [cleanProg, updStore, h1, h2]
  · exact Nat.ne_of_gt (Nat.lt_succ_of_lt h)
  · simp [cleanProg, updStore, cleanData]
  · simp [transformProg, updStore]

/-- Counterexample to claim C9 as stated: after `transform_data`, the
caller's table object no longer holds the rows, columns and values it held
before the call (a `processed_at` column has been appended and the text
normalized in place). -/
theorem c9_claim_counterexample :
    (transformProg (fun _ => exTableC8) 0 5).1 0 ≠ exTableC8 := by
  decide

/-- Witness for claim C9: on a concrete store, cleaning leaves the argument
object untouched while transforming overwrites it with the enriched value. -/
theorem c9_witness :
    ((cleanProg (fun _ => exTableW4) 0 1).1 0 = exTableW4)
    ∧ ((transformProg (fun _ => exTableW4) 0 7).1 0 = transformData 7 exTableW4) := by
  have h := c9_stage_ownership_amended (fun _ => exTableW4) 0 1 7 Nat.zero_lt_one
  exact ⟨h.1, h.2.2.2.2⟩

/-! ### Transform-stage access lemmas (claims C1 and C8) -/

theorem addPriceCategory_cols_pos (t : Table) (hp : hasCol t.cols "price" = true) :
    (addPriceCategory t).cols = t.cols ++ [("price_category", ColType.categorical)] := by
  simp [addPriceCategory, hp]

theorem addPriceCategory_rows_pos (t : Table) (hp : hasCol t.cols "price" = true) :
    (addPriceCategory t).rows
      = t.rows.map (fun r => r ++ [cutPrice (cellAt r (findColIdx t.cols "price"))]) := by
  simp [addPriceCategory, hp]

theorem addPriceCategory_neg (t : Table) (hp : hasCol t.cols "price" = false) :
    addPriceCategory t = t := by
  simp [addPriceCategory, hp]

theorem transformData_cols (now : Nat) (t : Table) :
    (transformData now t).cols
      = (addPriceCategory t).cols ++ [("processed_at", ColType.datetime)] := rfl

theorem transformData_rows (now : Nat) (t : Table) :
    (transformData now t).rows
      = ((addPriceCategory t).rows.map (fun r => r ++ [Val.vtime now])).map
          (normalizeRow ((addPriceCategory t).cols ++ [("processed_at", ColType.datetime)])) := rfl

theorem normalizeRow_cellAt :
    ∀ (j : Nat) (cols : List (String × ColType)) (r : Row), j < cols.length → j < r.length →
      cellAt (normalizeRow cols r) j =
        if (cols.getD j ("", ColType.text)).2 = ColType.text
            ∧ (cols.getD j ("", ColType.text)).1 ≠ "processed_at"
        then normVal (cellAt r j) else cellAt r j := by
  intro j
  induction j with
  | zero =>
    intro cols r hc hr
    cases cols with
    | nil => exact absurd hc (Nat.not_lt_zero 0)
    | cons c cs =>
      cases r with
      | nil => exact absurd hr (Nat.not_lt_zero 0)
      | cons v vs => simp [normalizeRow, cellAt]
  | succ k ih =>
    intro cols r hc hr
    cases cols with
    | nil => exact absurd hc (Nat.not_lt_zero _)
    | cons c cs =>
      cases r with
      | nil => exact absurd hr (Nat.not_lt_zero _)
      | cons v vs =>
        simp only [normalizeRow, List.zip_cons_cons, List.map_cons, cellAt,
          List.getD_cons_succ]
        exact ih cs vs (Nat.lt_of_succ_lt_succ hc) (Nat.lt_of_succ_lt_succ hr)

/-- The `price_category` cell appended to row `i` is the `pd.cut` of that
row's `price` cell, and the text-normalization pass leaves the categorical
column untouched. -/
theorem transformData_cell_pc (t : Table) (now i : Nat)
    (hp : hasCol t.cols "price" = true)
    (hlen : ∀ r ∈ t.rows, r.length = t.cols.length)
    (hi : i < t.rows.length) :
    cellAt ((transformData now t).rows.getD i []) t.cols.length
      = cutPrice (cellAt (t.rows.getD i []) (findColIdx t.cols "price")) := by
  have hr : t.rows.getD i [] ∈ t.rows := getD_mem_of_lt [] t.rows i hi
  have hrl : (t.rows.getD i []).length = t.cols.length := hlen _ hr
  rw [transformData_rows, addPriceCategory_rows_pos t hp, addPriceCategory_cols_pos t hp]
  have hi1 : i < (t.rows.map
      (fun r => r ++ [cutPrice (cellAt r (findColIdx t.cols "price"))])).length := by
    simpa using hi
  have hi2 : i < ((t.rows.map
      (fun r => r ++ [cutPrice (cellAt r (findColIdx t.cols "price"))])).map
      (fun r => r ++ [Val.vtime now])).length := by
    simpa using hi
  rw [getD_map_lt _ [] [] _ i hi2, getD_map_lt _ [] [] _ i hi1,
      getD_map_lt _ [] [] t.rows i hi]
  show cellAt (normalizeRow
      ((t.cols ++ [("price_category", ColType.categorical)])
        ++ [("processed_at", ColType.datetime)])
      (((t.rows.getD i [])
          ++ [cutPrice (cellAt (t.rows.getD i []) (findColIdx t.cols "price"))])
        ++ [Val.vtime now])) t.cols.length
    = cutPrice (cellAt (t.rows.getD i []) (findColIdx t.cols "price"))
  have hclen : t.cols.length < ((t.cols ++ [("price_category", ColType.categorical)])
      ++ [("processed_at", ColType.datetime)]).length := by
    simp
  have hrlen : t.cols.length < (((t.rows.getD i [])
      ++ [cutPrice (cellAt (t.rows.getD i []) (findColIdx t.cols "price"))])
      ++ [Val.vtime now]).length := by
    simp only [List.length_append, List.length_cons, List.length_nil]
    omega
  rw [normalizeRow_cellAt t.cols.length _ _ hclen hrlen]
  have hcoln : ((t.cols ++ [("price_category", ColType.categorical)])
      ++ [("processed_at", ColType.datetime)]).getD t.cols.length ("", ColType.text)
      = ("price_category", ColType.categorical) := by
    have hlt : t.cols.length
        < (t.cols ++ [("price_category", ColType.categorical)]).length := by
      simp
    rw [getD_append_lt _ _ _ _ hlt, getD_append_len]
  rw [hcoln, if_neg (by decide :
    ¬ (("price_category", ColType.categorical).2 = ColType.text
        ∧ ("price_category", ColType.categorical).1 ≠ "processed_at"))]
  simp only [cellAt]
  have hlt2 : t.cols.length < ((t.rows.getD i [])
      ++ [cutPrice ((t.rows.getD i []).getD (findColIdx t.cols "price") Val.vnan)]).length := by
    simp only [List.length_append, List.length_cons, List.length_nil]
    omega
  rw [getD_append_lt _ _ _ _ hlt2, ← hrl, getD_append_len]

/-- Any original column position of the transformed table holds the
normalized cell when the column is an object column not named
`processed_at`, and the unchanged cell otherwise. -/
theorem transformData_cell_orig (t : Table) (now i j : Nat)
    (hlen : ∀ r ∈ t.rows, r.length = t.cols.length)
    (hi : i < t.rows.length) (hj : j < t.cols.length) :
    cellAt ((transformData now t).rows.getD i []) j
      = if (t.cols.getD j ("", ColType.text)).2 = ColType.text
            ∧ (t.cols.getD j ("", ColType.text)).1 ≠ "processed_at"
        then normVal (cellAt (t.rows.getD i []) j)
        else cellAt (t.rows.getD i []) j := by
  have hr : t.rows.getD i [] ∈ t.rows := getD_mem_of_lt [] t.rows i hi
  have hrl : (t.rows.getD i []).length = t.cols.length := hlen _ hr
  cases hp : hasCol t.cols "price" with
  | true =>
    rw [transformData_rows, addPriceCategory_rows_pos t hp, addPriceCategory_cols_pos t hp]
    have hi1 : i < (t.rows.map
        (fun r => r ++ [cutPrice (cellAt r (findColIdx t.cols "price"))])).length := by
      simpa using hi
    have hi2 : i < ((t.rows.map
        (fun r => r ++ [cutPrice (cellAt r (findColIdx t.cols "price"))])).map
        (fun r => r ++ [Val.vtime now])).length := by
      simpa using hi
    rw [getD_map_lt _ [] [] _ i hi2, getD_map_lt _ [] [] _ i hi1,
        getD_map_lt _ [] [] t.rows i hi]
    show cellAt (normalizeRow
        ((t.cols ++ [("price_category", ColType.categorical)])
          ++ [("processed_at", ColType.datetime)])
        (((t.rows.getD i [])
            ++ [cutPrice (cellAt (t.rows.getD i []) (findColIdx t.cols "price"))])
          ++ [Val.vtime now])) j = _
    have hclen : j < ((t.cols ++ [("price_category", ColType.categorical)])
        ++ [("processed_at", ColType.datetime)]).length := by
      simp
      omega
    have hrlen : j < (((t.rows.getD i [])
        ++ [cutPrice (cellAt (t.rows.getD i []) (findColIdx t.cols "price"))])
        ++ [Val.vtime now]).length := by
      simp only [List.length_append, List.length_cons, List.length_nil]
      omega
    rw [normalizeRow_cellAt j _ _ hclen hrlen]
    have e1 : ((t.cols ++ [("price_category", ColType.categorical)])
        ++ [("processed_at", ColType.datetime)]).getD j ("", ColType.text)
        = t.cols.getD j ("", ColType.text) := by
      have l1 : j < (t.cols ++ [("price_category", ColType.categorical)]).length := by
        simp
        omega
      rw [getD_append_lt _ _ _ _ l1, getD_append_lt _ _ _ _ hj]
    have e2 : cellAt (((t.rows.getD i [])
        ++ [cutPrice (cellAt (t.rows.getD i []) (findColIdx t.cols "price"))])
        ++ [Val.vtime now]) j = cellAt (t.rows.getD i []) j := by
      simp only [cellAt]
      have l2 : j < ((t.rows.getD i [])
          ++ [cutPrice ((t.rows.getD i []).getD (findColIdx t.cols "price") Val.vnan)]).length := by
        simp only [List.length_append, List.length_cons, List.length_nil]
        omega
      have l3 : j < (t.rows.getD i []).length := by
        rw [hrl]
        exact hj
      rw [getD_append_lt _ _ _ _ l2, getD_append_lt _ _ _ _ l3]
    rw [e1, e2]
  | false =>
    rw [transformData_rows, addPriceCategory_neg t hp]
    have hi1 : i < (t.rows.map (fun r => r ++ [Val.vtime now])).length := by
      simpa using hi
    rw [getD_map_lt _ [] [] _ i hi1, getD_map_lt _ [] [] t.rows i hi]
    show cellAt (normalizeRow (t.cols ++ [("processed_at", ColType.datetime)])
        ((t.rows.getD i []) ++ [Val.vtime now])) j = _
    have hclen : j < (t.cols ++ [("processed_at", ColType.datetime)]).length := by
      simp
      omega
    have hrlen : j < ((t.rows.getD i []) ++ [Val.vtime now]).length := by
      simp only [List.length_append, List.length_cons, List.length_nil]
      omega
    rw [normalizeRow_cellAt j _ _ hclen hrlen]
    have e1 : (t.cols ++ [("processed_at", ColType.datetime)]).getD j ("", ColType.text)
        = t.cols.getD j ("", ColType.text) := getD_append_lt _ _ _ _ hj
    have e2 : cellAt ((t.rows.getD i []) ++ [Val.vtime now]) j
        = cellAt (t.rows.getD i []) j := by
      simp only [cellAt]
      have l3 : j < (t.rows.getD i []).length := by
        rw [hrl]
        exact hj
      rw [getD_append_lt _ _ _ _ l3]
    rw [e1, e2]

/-- Claim C1 (amended): for a table with a column named `price`, enrichment
appends a `price_category` column whose cell is the `pd.cut` bin of the
price cell; `pd.cut` defaults to `right=True`, so the bins are
right-inclusive: `(0,50]` is `Low`, `(50,200]` is `Medium`, `(200,500]` is
`High`, `(500,inf)` is `Premium`; hence price 50 is `Low`, price 500 is
`High`, and price 0 as well as any negative price gets the missing
category. -/
theorem c1_price_binning_amended :
    (∀ q : ℚ, q ≤ 0 → cutPrice (Val.vnum q) = Val.vnan)
    ∧ (∀ q : ℚ, 0 < q → q ≤ 50 → cutPrice (Val.vnum q) = Val.vstr "Low")
    ∧ (∀ q : ℚ, 50 < q → q ≤ 200 → cutPrice (Val.vnum q) = Val.vstr "Medium")
    ∧ (∀ q : ℚ, 200 < q → q ≤ 500 → cutPrice (Val.vnum q) = Val.vstr "High")
    ∧ (∀ q : ℚ, 500 < q → cutPrice (Val.vnum q) = Val.vstr "Premium")
    ∧ cutPrice Val.vnan = Val.vnan
    ∧ (∀ (t : Table) (now i : Nat),
        hasCol t.cols "price" = true →
        (∀ r ∈ t.rows, r.length = t.cols.length) →
        i < t.rows.length →
        (transformData now t).cols.getD t.cols.length ("", ColType.text)
            = ("price_category", ColType.categorical)
        ∧ cellAt ((transformData now t).rows.getD i []) t.cols.length
            = cutPrice (cellAt (t.rows.getD i []) (findColIdx t.cols "price"))) := by
  refine ⟨?_, ?_, ?_, ?_, ?_, rfl, ?_⟩
  · intro q h
    have h1 : ¬ (0:ℚ) < q := not_lt.2 h
    have h2 : ¬ (50:ℚ) < q := fun hc => h1 (lt_trans (by norm_num) hc)
    have h3 : ¬ (200:ℚ) < q := fun hc => h1 (lt_trans (by norm_num) hc)
    have h4 : ¬ (500:ℚ) < q := fun hc => h1 (lt_trans (by norm_num) hc)
    simp [cutPrice, priceCategory, h1, h2, h3, h4]
  · intro q h0 h50
    simp [cutPrice, priceCategory, h0, h50]
  · intro q h50 h200
    have h0 : (0:ℚ) < q := lt_trans (by norm_num) h50
    have hn : ¬ q ≤ (50:ℚ) := not_le.2 h50
    simp [cutPrice, priceCategory, h0, hn, h50, h200]
  · intro q h200 h500
    have h0 : (0:ℚ) < q := lt_trans (by norm_num) h200
    have h50 : (50:ℚ) < q := lt_trans (by norm_num) h200
    have hn50 : ¬ q ≤ (50:ℚ) := not_le.2 h50
    have hn200 : ¬ q ≤ (200:ℚ) := not_le.2 h200
    simp [cutPrice, priceCategory, hn50, hn200, h200, h500]
  · intro q h500
    have h50 : (50:ℚ) < q := lt_trans (by norm_num) h500
    have h200 : (200:ℚ) < q := lt_trans (by norm_num) h500
    have hn50 : ¬ q ≤ (50:ℚ) := not_le.2 h50
    have hn200 : ¬ q ≤ (200:ℚ) := not_le.2 h200
    have hn500 : ¬ q ≤ (500:ℚ) := not_le.2 h500
    simp [cutPrice, priceCategory, hn50, hn200, hn500, h500]
  · intro t now i hp hlen hi
    refine ⟨?_, transformData_cell_pc t now i hp hlen hi⟩
    rw [transformData_cols, addPriceCategory_cols_pos t hp]
    have hlt : t.cols.length
        < (t.cols ++ [("price_category", ColType.categorical)]).length := by
      simp
    rw [getD_append_lt _ _ _ _ hlt, getD_append_len]

/-- Counterexample to claim C1 as stated: the claim puts the boundary value
50 in the `Medium` bin (left-inclusive bins), but the code, using the
`pd.cut` default `right=True`, puts 50 in `Low`; likewise price 0 gets the
missing category rather than `Low`, and price 500 gets `High` rather than
`Premium`. -/
theorem c1_claim_counterexample :
    cellAt ((transformData 0 exTableC1).rows.getD 0 []) 1 = Val.vstr "Low"
    ∧ Val.vstr "Low" ≠ Val.vstr "Medium"
    ∧ cutPrice (Val.vnum 0) = Val.vnan
    ∧ cutPrice (Val.vnum 500) = Val.vstr "High" := by
  with_unfolding_all decide

/-- Witness for claim C1 at concrete inputs: the bin of the boundary value
50 and the appended column of the concrete one-row price table. -/
theorem c1_witness :
    cutPrice (Val.vnum 50) = Val.vstr "Low"
    ∧ (transformData 0 exTableC1).cols.getD 1 ("", ColType.text)
        = ("price_category", ColType.categorical) := by
  refine ⟨c1_price_binning_amended.2.1 50 (by norm_num) (by norm_num), ?_⟩
  exact (c1_price_binning_amended.2.2.2.2.2.2 exTableC1 0 0
    (by decide) (by decide) (by decide)).1

/-- Claim C8 (amended): enrichment transforms every object column except
`processed_at` cell-wise by trimming and then applying Python `str.title()`
title-casing, whose word boundaries are all NON-LETTER characters (not just
whitespace): the first letter after a non-letter is uppercased and every
other letter lowercased.  `"  john smith  "` becomes `"John Smith"`,
`"Unknown"` stays `"Unknown"`, and a missing value stays missing. -/
theorem c8_text_normalization_amended :
    (∀ s : String, normalizeText s = pyTitle (pyStrip s))
    ∧ normVal Val.vnan = Val.vnan
    ∧ (∀ s : String, normVal (Val.vstr s) = Val.vstr (normalizeText s))
    ∧ normalizeText "  john smith  " = "John Smith"
    ∧ normalizeText "Unknown" = "Unknown"
    ∧ (∀ (t : Table) (now i j : Nat),
        (∀ r ∈ t.rows, r.length = t.cols.length) →
        i < t.rows.length → j < t.cols.length →
        (t.cols.getD j ("", ColType.text)).2 = ColType.text →
        (t.cols.getD j ("", ColType.text)).1 ≠ "processed_at" →
        cellAt ((transformData now t).rows.getD i []) j
          = normVal (cellAt (t.rows.getD i []) j)) := by
  refine ⟨fun _ => rfl, rfl, fun _ => rfl, by decide, by decide, ?_⟩
  intro t now i j hlen hi hj htext hname
  rw [transformData_cell_orig t now i j hlen hi hj, if_pos ⟨htext, hname⟩]

/-- Counterexample to claim C8 as stated: on the value `"e-mail"` the code
produces `"E-Mail"` (Python `str.title()` starts a new word at the hyphen),
while the whitespace-token title-casing the claim describes produces
`"E-mail"`. -/
theorem c8_claim_counterexample :
    cellAt ((transformData 0 exTableC8).rows.getD 0 []) 0 = Val.vstr "E-Mail"
    ∧ specNormalizeText "e-mail" = "E-mail"
    ∧ Val.vstr "E-Mail" ≠ Val.vstr (specNormalizeText "e-mail") := by
  decide

/-- Witness for claim C8 at the concrete one-row table holding
`"  john smith  "`. -/
theorem c8_witness :
    cellAt ((transformData 0 exTableW).rows.getD 0 []) 0
      = normVal (cellAt (exTableW.rows.getD 0 []) 0) :=
  c8_text_normalization_amended.2.2.2.2.2 exTableW 0 0 0
    (by decide) (by decide) (by decide) (by decide) (by decide)
